import Mathlib

/-!
Verification of the Sudoku reasoning core of the Snap-n-Solve repository.

The embedding covers `sudokuSolver.py` (best-first backtracking solver) and
`sudokuDifficulty.py` (difficulty analyzer and validator).  Grids are modelled
as functions `Nat → Nat → Nat`; the nine relevant rows and columns are the
indices `0..8`, matching the Python loops `for i in range(9)`.  Python's
in-place mutation of the matrix is modelled by explicit state passing, the
shared one-element list `cont` by a `Bool` field, and the unbounded recursion
of `sudoku_helper` by a fuel parameter (the invariance lemmas below are proved
for every fuel value, so no conclusion depends on the particular fuel chosen).
The state also carries a ghost counter `placements` that counts executions of
the tentative assignment `matrix[row][col] = j`; it influences nothing else.
Exact rational arithmetic (`ℚ`) stands in for Python floats; all constants in
the difficulty formula are decimal literals that translate directly.
-/

set_option maxRecDepth 8000

/-- A 9×9 grid: entry at row `i`, column `j` (both in `0..8`), `0` = empty. -/
def GridF : Type := Nat → Nat → Nat

/-- Build a grid from a list of rows (out-of-range entries default to `0`). -/
def gridOf (l : List (List Nat)) : GridF :=
  fun i j => (l.getD i []).getD j 0

/-- Functional update of one grid cell, modelling `matrix[r][c] = v`. -/
def updateG (m : GridF) (r c v : Nat) : GridF :=
  fun i j => if i = r ∧ j = c then v else m i j

/-- The three row indices of the 3×3 block containing index `x`
(`range(r*3, r*3+3)` with `r = x // 3` in the Python source). -/
def blockRange (x : Nat) : List Nat := List.range' (x / 3 * 3) 3

/-- `can_be_correct(matrix, row, col)` from `sudokuSolver.py`: the cell at
`(row, col)` creates no duplicate in its row, column, or 3×3 block. -/
def can_be_correct (m : GridF) (row col : Nat) : Bool :=
  ((List.range 9).all fun c => decide (¬ (m row col ≠ 0 ∧ col ≠ c ∧ m row col = m row c))) &&
  ((List.range 9).all fun r => decide (¬ (m row col ≠ 0 ∧ row ≠ r ∧ m row col = m r col))) &&
  ((blockRange row).all fun i => (blockRange col).all fun j =>
    decide (¬ (row ≠ i ∧ col ≠ j ∧ m i j ≠ 0 ∧ m i j = m row col)))

/-- `count_choices(matrix, i, j)`: the boolean array `can_pick` is modelled as a
function `Nat → Bool`, cleared at each value read from the row, column and
block, and the digits `1..9` still pickable are counted. -/
def count_choices (m : GridF) (i j : Nat) : Nat :=
  let cp0 : Nat → Bool := fun _ => true
  let cp1 := (List.range 9).foldl (fun cp k => fun v => if v = m i k then false else cp v) cp0
  let cp2 := (List.range 9).foldl (fun cp k => fun v => if v = m k j then false else cp v) cp1
  let cp3 := (blockRange i).foldl (fun cp row =>
    (blockRange j).foldl (fun cp col => fun v => if v = m row col then false else cp v) cp) cp2
  (List.range' 1 9).countP fun k => cp3 k

/-- `EntryData`: one frontier entry (row, column, number of choices). -/
structure EntryData where
  row : Nat
  col : Nat
  choices : Nat
deriving DecidableEq, Inhabited

/-- The loop of `heapq._siftdown`, written with a structural gas parameter so
that it evaluates by kernel reduction.  Each iteration strictly decreases
`pos`, so `gas = pos + 1` (as passed by `siftdownAux`) never runs out: the
`gas = 0` fallback is unreachable on every actual call. -/
def siftdownGo : Nat → List EntryData → Nat → Nat → EntryData → List EntryData
  | 0, heap, _, pos, newitem => heap.set pos newitem
  | gas + 1, heap, startpos, pos, newitem =>
    if startpos < pos then
      if newitem.choices < (heap.getD ((pos - 1) / 2) default).choices then
        siftdownGo gas (heap.set pos (heap.getD ((pos - 1) / 2) default)) startpos
          ((pos - 1) / 2) newitem
      else heap.set pos newitem
    else heap.set pos newitem

/-- `heapq._siftdown`: move `newitem` toward the root while it is smaller than
its parent (comparison is `EntryData.__lt__`, i.e. on `choices`). -/
def siftdownAux (heap : List EntryData) (startpos pos : Nat) (newitem : EntryData) :
    List EntryData :=
  siftdownGo (pos + 1) heap startpos pos newitem

/-- The loop of `heapq._siftup`, with a structural gas parameter: `pos`
strictly increases toward `endpos`, so `gas = endpos` (as passed by
`siftupLoop`) never runs out and the `gas = 0` fallback is unreachable. -/
def siftupGo : Nat → List EntryData → Nat → Nat → Nat × List EntryData
  | 0, heap, _, pos => (pos, heap)
  | gas + 1, heap, endpos, pos =>
    if 2 * pos + 1 < endpos then
      if 2 * pos + 2 < endpos ∧
          ¬ (heap.getD (2 * pos + 1) default).choices
            < (heap.getD (2 * pos + 2) default).choices then
        siftupGo gas (heap.set pos (heap.getD (2 * pos + 2) default)) endpos (2 * pos + 2)
      else
        siftupGo gas (heap.set pos (heap.getD (2 * pos + 1) default)) endpos (2 * pos + 1)
    else (pos, heap)

/-- The loop of `heapq._siftup`: bubble the hole at `pos` down to a leaf,
always moving to the smaller child (`childpos`/`rightpos` in the source). -/
def siftupLoop (heap : List EntryData) (endpos pos : Nat) : Nat × List EntryData :=
  siftupGo endpos heap endpos pos

/-- `heapq._siftup`: after the sift-to-leaf loop, write `newitem` at the final
position and sift it down toward the root. -/
def siftup (heap : List EntryData) (pos : Nat) : List EntryData :=
  let endpos := heap.length
  let newitem := heap.getD pos default
  let pr := siftupLoop heap endpos pos
  siftdownAux (pr.2.set pr.1 newitem) pos pr.1 newitem

/-- `heapq.heappush`: append the item and sift it toward the root. -/
def heapPush (heap : List EntryData) (item : EntryData) : List EntryData :=
  siftdownAux (heap ++ [item]) 0 heap.length item

/-- `heapq.heappop`: pop the last element; if the heap is still nonempty,
return the old root after moving the last element to the root and sifting it
up.  The callers in `sudokuSolver.py` only pop nonempty heaps (they test
emptiness first), so the `[]` case is never reached. -/
def heapPop (heap : List EntryData) : EntryData × List EntryData :=
  if heap.isEmpty then (default, [])
  else
    let lastelt := heap.getD (heap.length - 1) default
    let rest := heap.dropLast
    if rest.isEmpty then (lastelt, rest)
    else (rest.getD 0 default, siftup (rest.set 0 lastelt) 0)

/-- The initial-heap loop of `solve_sudoku` (also rebuilt after every
placement in `sudoku_helper`): push an entry for every empty cell. -/
def buildHeap (m : GridF) : List EntryData :=
  (List.range 9).foldl (fun h i =>
    (List.range 9).foldl (fun h j =>
      if m i j = 0 then heapPush h ⟨i, j, count_choices m i j⟩ else h) h) []

/-- Solver state: the matrix, the shared `cont` flag (`cont = true` means the
search is still running, `cont = false` that a solution was found), and the
ghost counter of tentative placements `matrix[row][col] = j`. -/
structure SolveState where
  m : GridF
  cont : Bool
  placements : Nat

/-- The `for j in range(1, 10)` loop of `sudoku_helper`, abstracted over the
recursive call used for the sub-search after a consistent placement. -/
def tryDigits (helperFn : SolveState → List EntryData → SolveState)
    (st : SolveState) (row col : Nat) : List Nat → SolveState
  | [] => st
  | j :: rest =>
    if st.cont = false then st
    else
      let m2 := updateG st.m row col j
      let st2 : SolveState := ⟨m2, st.cont, st.placements + 1⟩
      if can_be_correct m2 row col then
        tryDigits helperFn (helperFn st2 (buildHeap m2)) row col rest
      else
        tryDigits helperFn st2 row col rest

/-- `sudoku_helper(matrix, cont, cell_heap)`: pop the cell with the fewest
choices, try digits 1–9 in it, and backtrack (reset the cell to `0`) if no
digit leads to success.  An empty heap means the board is full: the shared
flag is cleared so every enclosing frame stops.  The fuel argument only makes
the recursion well-founded; running out of fuel returns the state unchanged. -/
def sudoku_helper : Nat → SolveState → List EntryData → SolveState
  | 0, st, _ => st
  | fuel + 1, st, cell_heap =>
    if st.cont = false then st
    else if cell_heap.isEmpty then { st with cont := false }
    else
      let best := (heapPop cell_heap).1
      let st2 := tryDigits (sudoku_helper fuel) st best.row best.col (List.range' 1 9)
      if st2.cont = false then st2
      else { st2 with m := updateG st2.m best.row best.col 0 }

/-- Fuel passed to `sudoku_helper` by `solve_sudoku`; any value at least `82`
exceeds the deepest possible recursion (one level per empty cell plus one). -/
def solveFuel : Nat := 100

/-- `solve_sudoku(matrix)`: first check every cell with `can_be_correct`
(returning with the matrix untouched if some cell already violates a
constraint), then build the frontier of empty cells and run the search. -/
def solve_sudoku (m : GridF) : SolveState :=
  if (List.range 9).all (fun i => (List.range 9).all fun j => can_be_correct m i j) then
    sudoku_helper solveFuel ⟨m, true, 0⟩ (buildHeap m)
  else ⟨m, true, 0⟩

/-- `all_board_non_zero(matrix)` from `sudokuSolver.py`. -/
def all_board_non_zero (m : GridF) : Bool :=
  (List.range 9).all fun i => (List.range 9).all fun j => !(m i j = 0)

/-! ## `sudokuDifficulty.py`: difficulty analyzer and validator -/

/-- `np.count_nonzero(grid_array == 0)`: the number of empty cells. -/
def emptyCellCount (g : GridF) : Nat :=
  (List.range 9).foldl (fun n i =>
    (List.range 9).foldl (fun n j => if g i j = 0 then n + 1 else n) n) 0

/-- The two counters of `check_symmetry`: `(symmetry_count, total_checks)`.
Every cell except the exact center is checked against its 180°-rotational
partner; the pair counts agreements on filled/empty status. -/
def symStats (g : GridF) : Nat × Nat :=
  (List.range 9).foldl (fun acc i =>
    (List.range 9).foldl (fun acc j =>
      if i = 8 - i ∧ j = 8 - j then acc
      else if (g i j = 0) ↔ (g (8 - i) (8 - j) = 0) then (acc.1 + 1, acc.2 + 1)
      else (acc.1, acc.2 + 1)) acc) (0, 0)

/-- Python's built-in `round`: round half to even (banker's rounding). -/
def pyRound (q : ℚ) : ℤ :=
  let f := Int.floor q
  let r := q - f
  if r < 1 / 2 then f
  else if 1 / 2 < r then f + 1
  else if Even f then f else f + 1

/-- `check_symmetry(grid)`: `round(10 * symmetry_count / total_checks)`,
or `10` when no check was performed. -/
def check_symmetry (g : GridF) : ℤ :=
  let st := symStats g
  if st.2 > 0 then pyRound ((10 * st.1 : ℚ) / st.2) else 10

/-- The `filled_cells` list of `calculate_isolation`, in traversal order. -/
def filled_cells (g : GridF) : List (Nat × Nat) :=
  (List.range 9).foldl (fun acc i =>
    (List.range 9).foldl (fun acc j =>
      if g i j ≠ 0 then acc ++ [(i, j)] else acc) acc) []

/-- Manhattan distance between two cells (`abs` on Python ints). -/
def manhattanDist (a b : Nat × Nat) : Nat :=
  ((a.1 : ℤ) - b.1).natAbs + ((a.2 : ℤ) - b.2).natAbs

/-- `total_distance` of `calculate_isolation`: sum of Manhattan distances over
the pairs `(cells[i], cells[j])` with `i < j`, in loop order. -/
def totalDistance : List (Nat × Nat) → Nat
  | [] => 0
  | c :: rest => rest.foldl (fun s c2 => s + manhattanDist c c2) 0 + totalDistance rest

/-- `comparisons` of `calculate_isolation`: the number of pairs summed. -/
def comparisons : List (Nat × Nat) → Nat
  | [] => 0
  | _ :: rest => rest.length + comparisons rest

/-- `calculate_isolation(grid)`: average pairwise Manhattan distance of the
filled cells, scaled by `10 / 8` and capped at `10`; `0` when there are no
filled cells or no pairs. -/
def calculate_isolation (g : GridF) : ℚ :=
  let fc := filled_cells g
  if fc = [] then 0
  else
    let td := totalDistance fc
    let cmp := comparisons fc
    if cmp = 0 then 0
    else min 10 ((td : ℚ) / cmp * 10 / 8)

/-- The `box_counts` of `calculate_regional_density`: filled cells per 3×3
box, as a list indexed by `(i // 3) * 3 + (j // 3)`. -/
def boxCounts (g : GridF) : List Nat :=
  (List.range 9).foldl (fun bc i =>
    (List.range 9).foldl (fun bc j =>
      if g i j ≠ 0 then bc.set (i / 3 * 3 + j / 3) (bc.getD (i / 3 * 3 + j / 3) 0 + 1)
      else bc) bc) (List.replicate 9 0)

/-- `calculate_regional_density(grid)`: variance of the nine box counts,
scaled by `10 / 5` and capped at `10`. -/
def calculate_regional_density (g : GridF) : ℚ :=
  let bc := boxCounts g
  let avg : ℚ := (bc.map fun c => (c : ℚ)).sum / 9
  let variance : ℚ := (bc.map fun c => ((c : ℚ) - avg) ^ 2).sum / 9
  min 10 (variance * 10 / 5)

/-- `get_possibilities(grid, row, col)`: the candidate set of a cell — the
digits `1..9` not present in its row, column, or 3×3 box; empty for a filled
cell.  Python's `set` is modelled as a `Finset ℕ`. -/
def get_possibilities (g : GridF) (row col : Nat) : Finset ℕ :=
  if g row col ≠ 0 then ∅
  else
    let p0 : Finset ℕ := Finset.Icc 1 9
    let p1 := (List.range 9).foldl (fun p c => if g row c ≠ 0 then p.erase (g row c) else p) p0
    let p2 := (List.range 9).foldl (fun p r => if g r col ≠ 0 then p.erase (g r col) else p) p1
    ((blockRange row).flatMap fun r => (blockRange col).map fun c => (r, c)).foldl
      (fun p rc => if g rc.1 rc.2 ≠ 0 then p.erase (g rc.1 rc.2) else p) p2

/-- `count_naked_singles(grid)`: empty cells whose candidate set has exactly
one member. -/
def count_naked_singles (g : GridF) : Nat :=
  (List.range 9).foldl (fun n i =>
    (List.range 9).foldl (fun n j =>
      if g i j = 0 ∧ (get_possibilities g i j).card = 1 then n + 1 else n) n) 0

/-- `estimate_solving_techniques(grid)`: four-bucket proxy driven by the
naked-single count. -/
def estimate_solving_techniques (g : GridF) : Nat :=
  let naked_singles := count_naked_singles g
  if naked_singles > 15 then 10
  else if naked_singles > 10 then 30
  else if naked_singles > 5 then 60
  else 90

/-- `calculate_difficulty(grid)`: the composite score and its tier. -/
def calculate_difficulty (g : GridF) : String × ℚ :=
  let empty_cells := emptyCellCount g
  let symmetry_score := check_symmetry g
  let isolation_factor := calculate_isolation g
  let regional_density := calculate_regional_density g
  let technique_score := estimate_solving_techniques g
  let final_score : ℚ :=
    min ((empty_cells : ℚ) * 1.5) 45 +
    (technique_score : ℚ) * 0.35 +
    ((10 : ℚ) - (symmetry_score : ℚ)) * 0.1 +
    isolation_factor * 0.05 +
    regional_density * 0.05
  if final_score < 40 then ("Easy", final_score)
  else if final_score < 60 then ("Medium", final_score)
  else if final_score < 80 then ("Hard", final_score)
  else ("Expert", final_score)

/-- The duplicate scan of one unit in `is_valid_sudoku`: walk the values,
remembering the nonzero ones already seen (the keys of the Python dict
`values`), and return the first repeated nonzero value. -/
def scanDup (seen : List Nat) : List Nat → Option Nat
  | [] => none
  | v :: rest => if v ≠ 0 ∧ v ∈ seen then some v else scanDup (v :: seen) rest

/-- Scan a unit starting from an empty `seen` set. -/
def scanUnit (vals : List Nat) : Option Nat := scanDup [] vals

/-- The values of row `row`, in column order. -/
def rowVals (g : GridF) (row : Nat) : List Nat :=
  (List.range 9).map fun col => g row col

/-- The values of column `col`, in row order. -/
def colVals (g : GridF) (col : Nat) : List Nat :=
  (List.range 9).map fun row => g row col

/-- The values of the 3×3 box with top-left corner `(br, bc)`, in loop order. -/
def boxVals (g : GridF) (br bc : Nat) : List Nat :=
  (List.range' br 3).flatMap fun r => (List.range' bc 3).map fun c => g r c

/-- The first row containing a duplicate, with the duplicated value. -/
def firstRowDup (g : GridF) : Option (Nat × Nat) :=
  (List.range 9).findSome? fun row => (scanUnit (rowVals g row)).map fun v => (row, v)

/-- The first column containing a duplicate, with the duplicated value. -/
def firstColDup (g : GridF) : Option (Nat × Nat) :=
  (List.range 9).findSome? fun col => (scanUnit (colVals g col)).map fun v => (col, v)

/-- The first 3×3 box containing a duplicate (`for box_row in range(0, 9, 3)`
then `box_col`), with its top-left corner and the duplicated value. -/
def firstBoxDup (g : GridF) : Option (Nat × Nat × Nat) :=
  ([0, 3, 6] : List Nat).findSome? fun br =>
    ([0, 3, 6] : List Nat).findSome? fun bc =>
      (scanUnit (boxVals g br bc)).map fun v => (br, bc, v)

/-- `check_solution_exists(grid)`: `false` exactly when some empty cell has an
empty candidate set. -/
def check_solution_exists (g : GridF) : Bool :=
  (List.range 9).all fun i => (List.range 9).all fun j =>
    !(decide (g i j = 0) && decide (get_possibilities g i j = ∅))

/-- `is_valid_sudoku(grid)`: duplicate checks on rows, columns and boxes (in
that order, 1-indexed messages), then the quick feasibility pass. -/
def is_valid_sudoku (g : GridF) : Bool × Option String :=
  match firstRowDup g with
  | some (row, v) =>
    (false, some ("Duplicate " ++ toString v ++ " in row " ++ toString (row + 1)))
  | none =>
  match firstColDup g with
  | some (col, v) =>
    (false, some ("Duplicate " ++ toString v ++ " in column " ++ toString (col + 1)))
  | none =>
  match firstBoxDup g with
  | some (br, bc, v) =>
    (false, some ("Duplicate " ++ toString v ++ " in 3x3 box at position (" ++
      toString (br / 3 + 1) ++ "," ++ toString (bc / 3 + 1) ++ ")"))
  | none =>
    if check_solution_exists g then (true, none)
    else (false, some "Puzzle has no solution")

/-! ## Specification-side predicates for the solver -/

/-- The cell at `(row, col)` conflicts with no other cell of its row, column,
or 3×3 block (the propositional content of `can_be_correct`). -/
def NoConflict (m : GridF) (row col : Nat) : Prop :=
  (∀ c, c < 9 → m row col ≠ 0 → c ≠ col → m row c ≠ m row col) ∧
  (∀ r, r < 9 → m row col ≠ 0 → r ≠ row → m r col ≠ m row col) ∧
  (∀ a b, a < 9 → b < 9 → a / 3 = row / 3 → b / 3 = col / 3 → a ≠ row → b ≠ col →
    m a b ≠ 0 → m a b ≠ m row col)

/-- Every cell of the grid passes `can_be_correct`. -/
def locallyConsistent (m : GridF) : Prop :=
  ∀ i j, i < 9 → j < 9 → can_be_correct m i j = true

/-- Every cell of the grid is filled. -/
def fullGrid (m : GridF) : Prop :=
  ∀ i j, i < 9 → j < 9 → m i j ≠ 0

/-- Every cell value is at most 9 (the data model allows values `0..9`). -/
def inRange9 (m : GridF) : Prop :=
  ∀ i j, i < 9 → j < 9 → m i j ≤ 9

/-- `m2` agrees with `m` on every filled cell of `m`. -/
def extendsG (m m2 : GridF) : Prop :=
  ∀ i j, i < 9 → j < 9 → m i j ≠ 0 → m2 i j = m i j

/-- The frontier invariant: every entry denotes an empty in-range cell, and an
empty frontier certifies a full grid. -/
def heapInvariant (h : List EntryData) (m : GridF) : Prop :=
  (∀ e ∈ h, e.row < 9 ∧ e.col < 9 ∧ m e.row e.col = 0) ∧ (h = [] → fullGrid m)

/-! ## Specification-side comparison definitions and concrete grids -/

/-- The spec's threshold map from the naked-single count to the
technique-proxy score (">15 → 10; >10 → 30; >5 → 60; else 90"). -/
def techOfCount (n : Nat) : Nat :=
  if n > 15 then 10 else if n > 10 then 30 else if n > 5 then 60 else 90

/-- Modelled from the spec claim: the isolation score as literally worded —
"the average Manhattan distance over all unordered pairs of filled cells,
divided by 8, capped at 10" (no factor 10; compare with
`calculate_isolation`, which computes `avg * 10 / 8`). -/
def isolationPerSpec (g : GridF) : ℚ :=
  min 10 ((totalDistance (filled_cells g) : ℚ) / (comparisons (filled_cells g)) / 8)

/-- Position `j` of the value list `l` repeats an earlier nonzero value. -/
def dupIndex (l : List Nat) (j : Nat) : Prop :=
  ∃ i ∈ Finset.range j, l.getD i 0 = l.getD j 0 ∧ l.getD j 0 ≠ 0

instance (l : List Nat) (j : Nat) : Decidable (dupIndex l j) := by
  unfold dupIndex
  infer_instance

/-- A complete, valid Sudoku solution (used as a success witness). -/
def gridSolved : GridF := gridOf
  [[5, 3, 4, 6, 7, 8, 9, 1, 2],
   [6, 7, 2, 1, 9, 5, 3, 4, 8],
   [1, 9, 8, 3, 4, 2, 5, 6, 7],
   [8, 5, 9, 7, 6, 1, 4, 2, 3],
   [4, 2, 6, 8, 5, 3, 7, 9, 1],
   [7, 1, 3, 9, 2, 4, 8, 5, 6],
   [9, 6, 1, 5, 3, 7, 2, 8, 4],
   [2, 8, 7, 4, 1, 9, 6, 3, 5],
   [3, 4, 5, 2, 8, 6, 1, 7, 9]]

/-- A grid with two `5`s in row 0 (duplicate; otherwise empty). -/
def gridDupRow : GridF := gridOf
  [[5, 5, 0, 0, 0, 0, 0, 0, 0]]

/-- A duplicate-free grid whose empty cell `(0, 0)` has an empty candidate
set: its row holds 1–4, its column 5–7, and its box 8–9. -/
def gridNoCandidate : GridF := gridOf
  [[0, 1, 2, 3, 4, 0, 0, 0, 0],
   [5, 8, 0, 0, 0, 0, 0, 0, 0],
   [6, 0, 9, 0, 0, 0, 0, 0, 0],
   [7, 0, 0, 0, 0, 0, 0, 0, 0]]

/-- A grid with exactly two filled cells at Manhattan distance 8. -/
def gridTwoCells : GridF := gridOf
  [[1], [], [], [], [], [], [], [], [2]]

/-- The all-empty grid. -/
def gridZero : GridF := fun _ _ => 0


/-- The composite score as computed by `calculate_difficulty` (the value of
its local `final_score`), shared by several lemmas. -/
def calcScore (g : GridF) : ℚ :=
  min ((emptyCellCount g : ℚ) * 1.5) 45 +
  (estimate_solving_techniques g : ℚ) * 0.35 +
  ((10 : ℚ) - (check_symmetry g : ℚ)) * 0.1 +
  calculate_isolation g * 0.05 +
  calculate_regional_density g * 0.05

/-! ## Basic lemmas about `updateG`, `blockRange`, `can_be_correct` -/

theorem updateG_at (m : GridF) (r c v : Nat) : updateG m r c v r c = v := by
  simp [updateG]

theorem updateG_ne (m : GridF) (r c v i j : Nat) (h : ¬ (i = r ∧ j = c)) :
    updateG m r c v i j = m i j := by
  simp only [updateG, if_neg h]

theorem updateG_updateG (m : GridF) (r c a b : Nat) :
    updateG (updateG m r c a) r c b = updateG m r c b := by
  funext i j
  by_cases h : i = r ∧ j = c
  · simp [updateG, h]
  · simp [updateG, h]

theorem updateG_zero_self (m : GridF) (r c : Nat) (h : m r c = 0) :
    updateG m r c 0 = m := by
  funext i j
  by_cases hij : i = r ∧ j = c
  · obtain ⟨h1, h2⟩ := hij
    subst h1; subst h2
    simp [updateG, h]
  · simp [updateG, hij]

theorem inRange9_updateG (m : GridF) (r c v : Nat) (hm : inRange9 m) (hv : v ≤ 9) :
    inRange9 (updateG m r c v) := by
  intro i j hi hj
  by_cases h : i = r ∧ j = c
  · rw [updateG, if_pos h]; exact hv
  · rw [updateG_ne m r c v i j h]; exact hm i j hi hj

theorem mem_blockRange (x i : Nat) (hx : x < 9) :
    i ∈ blockRange x ↔ i < 9 ∧ i / 3 = x / 3 := by
  simp only [blockRange, List.mem_range'_1]
  omega

theorem can_be_correct_iff (m : GridF) (row col : Nat) (hr : row < 9) (hc : col < 9) :
    can_be_correct m row col = true ↔ NoConflict m row col := by
  simp only [can_be_correct, Bool.and_eq_true, List.all_eq_true, List.mem_range,
    decide_eq_true_eq]
  constructor
  · rintro ⟨⟨h1, h2⟩, h3⟩
    refine ⟨?_, ?_, ?_⟩
    · intro c hc9 hnz hne heq
      exact h1 c hc9 ⟨hnz, fun h => hne h.symm, heq.symm⟩
    · intro r hr9 hnz hne heq
      exact h2 r hr9 ⟨hnz, fun h => hne h.symm, heq.symm⟩
    · intro a b ha hb hda hdb hna hnb hnz heq
      have hma : a ∈ blockRange row := (mem_blockRange row a hr).mpr ⟨ha, hda⟩
      have hmb : b ∈ blockRange col := (mem_blockRange col b hc).mpr ⟨hb, hdb⟩
      exact h3 a hma b hmb ⟨fun h => hna h.symm, fun h => hnb h.symm, hnz, heq⟩
  · rintro ⟨h1, h2, h3⟩
    refine ⟨⟨?_, ?_⟩, ?_⟩
    · rintro c hc9 ⟨hnz, hne, heq⟩
      exact h1 c hc9 hnz (fun h => hne h.symm) heq.symm
    · rintro r hr9 ⟨hnz, hne, heq⟩
      exact h2 r hr9 hnz (fun h => hne h.symm) heq.symm
    · rintro a hma b hmb ⟨hna, hnb, hnz, heq⟩
      obtain ⟨ha, hda⟩ := (mem_blockRange row a hr).mp hma
      obtain ⟨hb, hdb⟩ := (mem_blockRange col b hc).mp hmb
      exact h3 a b ha hb hda hdb (fun h => hna h.symm) (fun h => hnb h.symm) hnz heq

/-- Key preservation step: placing a consistent nonzero value into an empty
cell of a locally consistent grid keeps the whole grid locally consistent
(conflicts are symmetric, so checking the placed cell suffices). -/
theorem locallyConsistent_updateG (m : GridF) (row col v : Nat) (hr : row < 9) (hc : col < 9)
    (hm : locallyConsistent m) (h0 : m row col = 0) (hv : v ≠ 0)
    (hok : can_be_correct (updateG m row col v) row col = true) :
    locallyConsistent (updateG m row col v) := by
  intro i j hi hj
  by_cases hij : i = row ∧ j = col
  · obtain ⟨h1, h2⟩ := hij
    rw [h1, h2]
    exact hok
  · rw [can_be_correct_iff _ i j hi hj]
    have hNC : NoConflict m i j := (can_be_correct_iff m i j hi hj).mp (hm i j hi hj)
    have hNCv : NoConflict (updateG m row col v) row col :=
      (can_be_correct_iff _ row col hr hc).mp hok
    have hoff : updateG m row col v i j = m i j := updateG_ne m row col v i j hij
    have hvat : updateG m row col v row col = v := updateG_at m row col v
    refine ⟨?_, ?_, ?_⟩
    · intro c hc9 hnz heq1 heq
      by_cases hcc : i = row ∧ c = col
      · obtain ⟨hir, hccol⟩ := hcc
        have hjc : j ≠ col := fun h => hij ⟨hir, h⟩
        rw [hir, hccol, hvat] at heq
        have h2 := hNCv.1 j hj (by rw [hvat]; exact hv) hjc
        rw [hvat] at h2
        exact h2 heq.symm
      · have h1 : updateG m row col v i c = m i c := updateG_ne m row col v i c hcc
        rw [hoff] at hnz heq
        rw [h1] at heq
        exact hNC.1 c hc9 hnz heq1 heq
    · intro r hr9 hnz hne heq
      by_cases hrr : r = row ∧ j = col
      · obtain ⟨hrrow, hjcol⟩ := hrr
        have hirow : i ≠ row := fun h => hij ⟨h, hjcol⟩
        rw [hrrow, hjcol, hvat] at heq
        have h2 := hNCv.2.1 i hi (by rw [hvat]; exact hv) hirow
        rw [hvat] at h2
        exact h2 heq.symm
      · have h1 : updateG m row col v r j = m r j := updateG_ne m row col v r j hrr
        rw [hoff] at hnz heq
        rw [h1] at heq
        exact hNC.2.1 r hr9 hnz hne heq
    · intro a b ha hb hda hdb hna hnb hnz heq
      by_cases hab : a = row ∧ b = col
      · obtain ⟨harow, hbcol⟩ := hab
        rw [harow, hbcol, hvat] at heq
        have hinz : updateG m row col v i j ≠ 0 := by rw [← heq]; exact hv
        have hd1 : i / 3 = row / 3 := by rw [← harow]; exact hda.symm
        have hd2 : j / 3 = col / 3 := by rw [← hbcol]; exact hdb.symm
        have hni : i ≠ row := fun h => hna (harow.trans h.symm)
        have hnj : j ≠ col := fun h => hnb (hbcol.trans h.symm)
        have h2 := hNCv.2.2 i j hi hj hd1 hd2 hni hnj hinz
        rw [hvat] at h2
        exact h2 heq.symm
      · have h1 : updateG m row col v a b = m a b := updateG_ne m row col v a b hab
        rw [h1] at hnz heq
        rw [hoff] at heq
        exact hNC.2.2 a b ha hb hda hdb hna hnb hnz heq

/-! ## Heap lemmas -/

theorem mem_of_mem_set {α : Type} : ∀ (l : List α) (n : Nat) (v e : α),
    e ∈ l.set n v → e = v ∨ e ∈ l := by
  intro l
  induction l with
  | nil => intro n v e h; simp [List.set] at h
  | cons x xs ih =>
    intro n v e h
    cases n with
    | zero =>
      simp only [List.set, List.mem_cons] at h
      rcases h with h | h
      · exact Or.inl h
      · exact Or.inr (List.mem_cons_of_mem x h)
    | succ k =>
      simp only [List.set, List.mem_cons] at h
      rcases h with h | h
      · exact Or.inr (h ▸ List.mem_cons_self x xs)
      · rcases ih k v e h with h2 | h2
        · exact Or.inl h2
        · exact Or.inr (List.mem_cons_of_mem x h2)

theorem getD_mem {α : Type} (l : List α) (n : Nat) (d : α) (h : n < l.length) :
    l.getD n d ∈ l := by
  rw [List.getD_eq_getElem l d h]
  exact List.getElem_mem h

theorem siftdownGo_length : ∀ (gas : Nat) (heap : List EntryData) (startpos pos : Nat)
    (item : EntryData), (siftdownGo gas heap startpos pos item).length = heap.length := by
  intro gas
  induction gas with
  | zero => intro heap startpos pos item; exact List.length_set heap pos item
  | succ gas ih =>
    intro heap startpos pos item
    rw [siftdownGo]
    split
    · split
      · rw [ih, List.length_set]
      · exact List.length_set heap pos item
    · exact List.length_set heap pos item

theorem siftdownGo_mem : ∀ (gas : Nat) (heap : List EntryData) (startpos pos : Nat)
    (item : EntryData), pos < heap.length →
    ∀ e ∈ siftdownGo gas heap startpos pos item, e = item ∨ e ∈ heap := by
  intro gas
  induction gas with
  | zero =>
    intro heap startpos pos item _ e he
    exact mem_of_mem_set _ _ _ _ he
  | succ gas ih =>
    intro heap startpos pos item hpos e he
    rw [siftdownGo] at he
    split at he
    · split at he
      · have hparent : heap.getD ((pos - 1) / 2) default ∈ heap :=
          getD_mem heap ((pos - 1) / 2) default (by omega)
        have := ih (heap.set pos (heap.getD ((pos - 1) / 2) default)) startpos
          ((pos - 1) / 2) item (by rw [List.length_set]; omega) e he
        rcases this with h2 | h2
        · exact Or.inl h2
        · rcases mem_of_mem_set _ _ _ _ h2 with h3 | h3
          · exact Or.inr (h3 ▸ hparent)
          · exact Or.inr h3
      · exact mem_of_mem_set _ _ _ _ he
    · exact mem_of_mem_set _ _ _ _ he

theorem siftdownAux_length (heap : List EntryData) (startpos pos : Nat) (item : EntryData) :
    (siftdownAux heap startpos pos item).length = heap.length :=
  siftdownGo_length (pos + 1) heap startpos pos item

theorem siftdownAux_mem (heap : List EntryData) (startpos pos : Nat) (item : EntryData)
    (hpos : pos < heap.length) :
    ∀ e ∈ siftdownAux heap startpos pos item, e = item ∨ e ∈ heap :=
  siftdownGo_mem (pos + 1) heap startpos pos item hpos

theorem heapPush_length (h : List EntryData) (item : EntryData) :
    (heapPush h item).length = h.length + 1 := by
  rw [heapPush, siftdownAux_length, List.length_append, List.length_cons, List.length_nil]

theorem heapPush_mem (h : List EntryData) (item : EntryData) :
    ∀ e ∈ heapPush h item, e = item ∨ e ∈ h := by
  intro e he
  have := siftdownAux_mem (h ++ [item]) 0 h.length item
    (by rw [List.length_append]; simp) e he
  rcases this with h2 | h2
  · exact Or.inl h2
  · rw [List.mem_append] at h2
    rcases h2 with h3 | h3
    · exact Or.inr h3
    · exact Or.inl (by simpa using h3)

theorem heapPop_fst_mem (h : List EntryData) (hne : h ≠ []) : (heapPop h).1 ∈ h := by
  have hemp : h.isEmpty = false := by
    cases h with
    | nil => exact absurd rfl hne
    | cons x xs => rfl
  rw [heapPop, hemp]
  simp only [Bool.false_eq_true, if_false]
  by_cases hrest : h.dropLast.isEmpty = true
  · rw [if_pos hrest]
    exact getD_mem _ _ _ (by
      have : 0 < h.length := List.length_pos.mpr hne
      omega)
  · rw [if_neg hrest]
    have hne2 : h.dropLast ≠ [] := by
      intro hcon
      rw [hcon] at hrest
      exact hrest rfl
    have hlen : 0 < h.dropLast.length := List.length_pos.mpr hne2
    exact List.dropLast_subset h (getD_mem _ _ _ hlen)

/-! ## `buildHeap` lemmas -/

theorem buildRow_mem (m : GridF) (i : Nat) (hi : i < 9) :
    ∀ (js : List Nat) (h : List EntryData), (∀ j ∈ js, j < 9) →
    (∀ e ∈ h, e.row < 9 ∧ e.col < 9 ∧ m e.row e.col = 0) →
    ∀ e ∈ js.foldl (fun h j =>
        if m i j = 0 then heapPush h ⟨i, j, count_choices m i j⟩ else h) h,
      e.row < 9 ∧ e.col < 9 ∧ m e.row e.col = 0 := by
  intro js
  induction js with
  | nil => intro h _ hh e he; exact hh e he
  | cons j js ih =>
    intro h hjs hh e he
    simp only [List.foldl_cons] at he
    refine ih _ (fun x hx => hjs x (List.mem_cons_of_mem j hx)) ?_ e he
    intro f hf
    by_cases h0 : m i j = 0
    · rw [if_pos h0] at hf
      rcases heapPush_mem h _ f hf with h2 | h2
      · rw [h2]
        exact ⟨hi, hjs j (List.mem_cons_self j js), h0⟩
      · exact hh f h2
    · rw [if_neg h0] at hf
      exact hh f hf

theorem buildHeap_mem (m : GridF) :
    ∀ e ∈ buildHeap m, e.row < 9 ∧ e.col < 9 ∧ m e.row e.col = 0 := by
  have main : ∀ (is : List Nat) (h : List EntryData), (∀ i ∈ is, i < 9) →
      (∀ e ∈ h, e.row < 9 ∧ e.col < 9 ∧ m e.row e.col = 0) →
      ∀ e ∈ is.foldl (fun h i => (List.range 9).foldl (fun h j =>
          if m i j = 0 then heapPush h ⟨i, j, count_choices m i j⟩ else h) h) h,
        e.row < 9 ∧ e.col < 9 ∧ m e.row e.col = 0 := by
    intro is
    induction is with
    | nil => intro h _ hh e he; exact hh e he
    | cons i is ih =>
      intro h his hh e he
      simp only [List.foldl_cons] at he
      refine ih _ (fun x hx => his x (List.mem_cons_of_mem i hx)) ?_ e he
      exact buildRow_mem m i (his i (List.mem_cons_self i is)) (List.range 9) h
        (fun j hj => List.mem_range.mp hj) hh
  intro e he
  exact main (List.range 9) [] (fun i hi => List.mem_range.mp hi) (by simp) e he

theorem buildRow_length (m : GridF) (i : Nat) :
    ∀ (js : List Nat) (h : List EntryData),
    (js.foldl (fun h j =>
        if m i j = 0 then heapPush h ⟨i, j, count_choices m i j⟩ else h) h).length
      = h.length + js.countP (fun j => decide (m i j = 0)) := by
  intro js
  induction js with
  | nil => intro h; simp
  | cons j js ih =>
    intro h
    simp only [List.foldl_cons, List.countP_cons]
    by_cases h0 : m i j = 0
    · rw [if_pos h0, ih, heapPush_length]
      simp [h0]
      omega
    · rw [if_neg h0, ih]
      simp [h0]

theorem buildHeap_length (m : GridF) :
    (buildHeap m).length
      = ((List.range 9).map fun i => (List.range 9).countP fun j => decide (m i j = 0)).sum := by
  have main : ∀ (is : List Nat) (h : List EntryData),
      (is.foldl (fun h i => (List.range 9).foldl (fun h j =>
          if m i j = 0 then heapPush h ⟨i, j, count_choices m i j⟩ else h) h) h).length
        = h.length + (is.map fun i => (List.range 9).countP fun j => decide (m i j = 0)).sum := by
    intro is
    induction is with
    | nil => intro h; simp
    | cons i is ih =>
      intro h
      simp only [List.foldl_cons, List.map_cons, List.sum_cons]
      rw [ih, buildRow_length]
      omega
  have := main (List.range 9) []
  simpa using this

theorem buildHeap_ne_nil (m : GridF) (i j : Nat) (hi : i < 9) (hj : j < 9)
    (h0 : m i j = 0) : buildHeap m ≠ [] := by
  have hcount : 0 < (List.range 9).countP fun j2 => decide (m i j2 = 0) := by
    rw [List.countP_pos_iff]
    exact ⟨j, List.mem_range.mpr hj, by simp [h0]⟩
  have hmem : ((List.range 9).countP fun j2 => decide (m i j2 = 0)) ∈
      ((List.range 9).map fun i2 => (List.range 9).countP fun j2 => decide (m i2 j2 = 0)) :=
    List.mem_map_of_mem _ (List.mem_range.mpr hi)
  have hsum := List.single_le_sum (l := (List.range 9).map fun i2 =>
      (List.range 9).countP fun j2 => decide (m i2 j2 = 0)) (fun x _ => Nat.zero_le x) _ hmem
  have hlen : 0 < (buildHeap m).length := by
    rw [buildHeap_length]
    omega
  exact List.ne_nil_of_length_pos hlen

theorem heapInvariant_buildHeap (m : GridF) : heapInvariant (buildHeap m) m := by
  constructor
  · exact buildHeap_mem m
  · intro hnil i j hi hj
    intro h0
    exact buildHeap_ne_nil m i j hi hj h0 hnil

/-! ## Solver invariants -/

theorem tryDigits_stop (f : SolveState → List EntryData → SolveState) (st : SolveState)
    (row col : Nat) (js : List Nat) (h : st.cont = false) :
    tryDigits f st row col js = st := by
  cases js with
  | nil => rfl
  | cons j rest => simp [tryDigits, h]

/-- Failure restores the matrix across the digit loop: if the loop ends with
the search still running, the cell being tried is the only difference. -/
theorem tryDigits_restore (fuel : Nat)
    (hrec : ∀ st heap, (∀ e ∈ heap, st.m e.row e.col = 0) →
      (sudoku_helper fuel st heap).cont = true → (sudoku_helper fuel st heap).m = st.m) :
    ∀ (js : List Nat) (st : SolveState) (row col : Nat),
      (tryDigits (sudoku_helper fuel) st row col js).cont = true →
      updateG (tryDigits (sudoku_helper fuel) st row col js).m row col 0
        = updateG st.m row col 0 := by
  intro js
  induction js with
  | nil => intro st row col _; rfl
  | cons j rest ih =>
    intro st row col hfinal
    by_cases hcont : st.cont = false
    · rw [tryDigits_stop _ _ _ _ _ hcont]
    · simp only [tryDigits, if_neg hcont] at hfinal ⊢
      by_cases hok : can_be_correct (updateG st.m row col j) row col = true
      · rw [if_pos hok] at hfinal ⊢
        set st3 := sudoku_helper fuel ⟨updateG st.m row col j, st.cont, st.placements + 1⟩
          (buildHeap (updateG st.m row col j)) with hst3
        by_cases h3 : st3.cont = true
        · have hm3 : st3.m = updateG st.m row col j := by
            refine hrec _ _ ?_ h3
            intro e he
            exact (buildHeap_mem _ e he).2.2
          rw [ih st3 row col hfinal, hm3, updateG_updateG]
        · exfalso
          have h3f : st3.cont = false := by
            cases hc : st3.cont
            · rfl
            · exact absurd hc h3
          rw [tryDigits_stop _ _ _ _ _ h3f] at hfinal
          rw [h3f] at hfinal
          exact Bool.false_ne_true hfinal
      · rw [if_neg hok] at hfinal ⊢
        rw [ih _ row col hfinal]
        exact updateG_updateG st.m row col j 0

/-- Failure restores the matrix across `sudoku_helper`: if the search returns
with `cont` still `true`, the matrix is exactly as it was. -/
theorem sudoku_helper_restore : ∀ (fuel : Nat) (st : SolveState) (heap : List EntryData),
    (∀ e ∈ heap, st.m e.row e.col = 0) →
    (sudoku_helper fuel st heap).cont = true → (sudoku_helper fuel st heap).m = st.m := by
  intro fuel
  induction fuel with
  | zero => intro st heap _ _; rfl
  | succ fuel ih =>
    intro st heap hmem hfinal
    by_cases hcont : st.cont = false
    · simp only [sudoku_helper, if_pos hcont]
    · by_cases hemp : heap.isEmpty = true
      · simp only [sudoku_helper, if_neg hcont, if_pos hemp] at hfinal
        exact absurd hfinal Bool.false_ne_true
      · simp only [sudoku_helper, if_neg hcont, if_neg hemp] at hfinal ⊢
        have hne : heap ≠ [] := by
          intro hcon
          rw [hcon] at hemp
          exact hemp rfl
        have h0 : st.m (heapPop heap).1.row (heapPop heap).1.col = 0 :=
          hmem _ (heapPop_fst_mem heap hne)
        set best := (heapPop heap).1 with hbest
        set st2 := tryDigits (sudoku_helper fuel) st best.row best.col (List.range' 1 9)
          with hst2
        by_cases h2 : st2.cont = false
        · rw [if_pos h2] at hfinal
          rw [h2] at hfinal
          exact absurd hfinal Bool.false_ne_true
        · rw [if_neg h2] at hfinal ⊢
          have h2t : st2.cont = true := by
            cases hc : st2.cont
            · exact absurd hc h2
            · rfl
          have := tryDigits_restore fuel ih (List.range' 1 9) st best.row best.col h2t
          simp only
          rw [this, updateG_zero_self st.m best.row best.col h0]

/-- Success of the digit loop yields a full, locally consistent grid extending
the loop's base matrix (the tried cell reset to `0`). -/
theorem tryDigits_sound (fuel : Nat)
    (hrest : ∀ st heap, (∀ e ∈ heap, st.m e.row e.col = 0) →
      (sudoku_helper fuel st heap).cont = true → (sudoku_helper fuel st heap).m = st.m)
    (hrec : ∀ st heap, st.cont = true → inRange9 st.m → locallyConsistent st.m →
      heapInvariant heap st.m → (sudoku_helper fuel st heap).cont = false →
      inRange9 (sudoku_helper fuel st heap).m ∧
      locallyConsistent (sudoku_helper fuel st heap).m ∧
      fullGrid (sudoku_helper fuel st heap).m ∧
      extendsG st.m (sudoku_helper fuel st heap).m) :
    ∀ (js : List Nat) (st : SolveState) (row col : Nat), st.cont = true → row < 9 → col < 9 →
      (∀ j ∈ js, 1 ≤ j ∧ j ≤ 9) →
      inRange9 (updateG st.m row col 0) → locallyConsistent (updateG st.m row col 0) →
      (tryDigits (sudoku_helper fuel) st row col js).cont = false →
      inRange9 (tryDigits (sudoku_helper fuel) st row col js).m ∧
      locallyConsistent (tryDigits (sudoku_helper fuel) st row col js).m ∧
      fullGrid (tryDigits (sudoku_helper fuel) st row col js).m ∧
      extendsG (updateG st.m row col 0) (tryDigits (sudoku_helper fuel) st row col js).m := by
  intro js
  induction js with
  | nil =>
    intro st row col hcont _ _ _ _ _ hfinal
    rw [tryDigits] at hfinal
    rw [hcont] at hfinal
    exact Bool.noConfusion hfinal
  | cons j rest ih =>
    intro st row col hcont hr hc hjs hinr hlc hfinal
    have hcf : ¬ (st.cont = false) := by simp [hcont]
    simp only [tryDigits, if_neg hcf] at hfinal ⊢
    have hm2 : updateG (updateG st.m row col 0) row col j = updateG st.m row col j :=
      updateG_updateG st.m row col 0 j
    have hj19 : 1 ≤ j ∧ j ≤ 9 := hjs j (List.mem_cons_self j rest)
    have hinr2 : inRange9 (updateG st.m row col j) := by
      rw [← hm2]
      exact inRange9_updateG _ row col j hinr hj19.2
    by_cases hok : can_be_correct (updateG st.m row col j) row col = true
    · rw [if_pos hok] at hfinal ⊢
      have hlc2 : locallyConsistent (updateG st.m row col j) := by
        have h0 : (updateG st.m row col 0) row col = 0 := updateG_at st.m row col 0
        have := locallyConsistent_updateG (updateG st.m row col 0) row col j hr hc hlc h0
          (by omega) (by rw [hm2]; exact hok)
        rw [hm2] at this
        exact this
      set st3 := sudoku_helper fuel ⟨updateG st.m row col j, st.cont, st.placements + 1⟩
        (buildHeap (updateG st.m row col j)) with hst3
      by_cases h3 : st3.cont = false
      · rw [tryDigits_stop _ _ _ _ _ h3] at hfinal ⊢
        have hsub := hrec ⟨updateG st.m row col j, st.cont, st.placements + 1⟩
          (buildHeap (updateG st.m row col j)) hcont hinr2 hlc2
          (heapInvariant_buildHeap (updateG st.m row col j)) h3
        refine ⟨hsub.1, hsub.2.1, hsub.2.2.1, ?_⟩
        have hext : extendsG (updateG st.m row col j) st3.m := hsub.2.2.2
        intro a b ha hb hnz
        have hab : ¬ (a = row ∧ b = col) := by
          intro hcon
          rw [hcon.1, hcon.2, updateG_at] at hnz
          exact hnz rfl
        have h1 : (updateG st.m row col 0) a b = st.m a b := updateG_ne st.m row col 0 a b hab
        have h2 : (updateG st.m row col j) a b = st.m a b := updateG_ne st.m row col j a b hab
        have hnz2 : (updateG st.m row col j) a b ≠ 0 := by
          rw [h2, ← h1]
          exact hnz
        have hagree := hext a b ha hb hnz2
        rw [hagree, h2, h1]
      · have h3t : st3.cont = true := by
          cases hcn : st3.cont
          · exact absurd hcn h3
          · rfl
        have hm3 : st3.m = updateG st.m row col j :=
          hrest ⟨updateG st.m row col j, st.cont, st.placements + 1⟩ _
            (fun e he => (buildHeap_mem _ e he).2.2) h3t
        have hrw : updateG st3.m row col 0 = updateG st.m row col 0 := by
          rw [hm3, updateG_updateG]
        have := ih st3 row col h3t hr hc
          (fun x hx => hjs x (List.mem_cons_of_mem j hx))
          (by rw [hrw]; exact hinr) (by rw [hrw]; exact hlc) hfinal
        rw [hrw] at this
        exact this
    · rw [if_neg hok] at hfinal ⊢
      have hrw : updateG (updateG st.m row col j) row col 0 = updateG st.m row col 0 :=
        updateG_updateG st.m row col j 0
      have := ih ⟨updateG st.m row col j, st.cont, st.placements + 1⟩ row col hcont hr hc
        (fun x hx => hjs x (List.mem_cons_of_mem j hx))
        (by rw [hrw]; exact hinr) (by rw [hrw]; exact hlc) hfinal
      rw [hrw] at this
      exact this

/-- Success of `sudoku_helper` yields a full, locally consistent, in-range
grid extending the matrix it was called on. -/
theorem sudoku_helper_sound : ∀ (fuel : Nat) (st : SolveState) (heap : List EntryData),
    st.cont = true → inRange9 st.m → locallyConsistent st.m → heapInvariant heap st.m →
    (sudoku_helper fuel st heap).cont = false →
    inRange9 (sudoku_helper fuel st heap).m ∧
    locallyConsistent (sudoku_helper fuel st heap).m ∧
    fullGrid (sudoku_helper fuel st heap).m ∧
    extendsG st.m (sudoku_helper fuel st heap).m := by
  intro fuel
  induction fuel with
  | zero =>
    intro st heap hcont _ _ _ hfinal
    simp only [sudoku_helper] at hfinal
    rw [hcont] at hfinal
    exact Bool.noConfusion hfinal
  | succ fuel ih =>
    intro st heap hcont hinr hlc hinv hfinal
    have hcf : ¬ (st.cont = false) := by simp [hcont]
    by_cases hemp : heap.isEmpty = true
    · simp only [sudoku_helper, if_neg hcf, if_pos hemp] at hfinal ⊢
      have hfull : fullGrid st.m := hinv.2 (List.isEmpty_iff.mp hemp)
      exact ⟨hinr, hlc, hfull, fun i j _ _ _ => rfl⟩
    · simp only [sudoku_helper, if_neg hcf, if_neg hemp] at hfinal ⊢
      have hne : heap ≠ [] := by
        intro hcon
        rw [hcon] at hemp
        exact hemp rfl
      obtain ⟨hrow, hcol, h0⟩ := hinv.1 _ (heapPop_fst_mem heap hne)
      set best := (heapPop heap).1 with hbest
      set st2 := tryDigits (sudoku_helper fuel) st best.row best.col (List.range' 1 9)
        with hst2
      by_cases h2 : st2.cont = false
      · rw [if_pos h2] at hfinal ⊢
        have hmc : updateG st.m best.row best.col 0 = st.m :=
          updateG_zero_self st.m best.row best.col h0
        have := tryDigits_sound fuel (sudoku_helper_restore fuel) ih (List.range' 1 9) st
          best.row best.col hcont hrow hcol
          (by
            intro x hx
            rw [List.mem_range'_1] at hx
            omega)
          (by rw [hmc]; exact hinr) (by rw [hmc]; exact hlc) h2
        rw [hmc] at this
        exact this
      · rw [if_neg h2] at hfinal
        exact absurd hfinal h2

/-! ## `solve_sudoku`-level lemmas -/

theorem solve_pre_iff (m : GridF) :
    ((List.range 9).all fun i => (List.range 9).all fun j => can_be_correct m i j) = true
      ↔ locallyConsistent m := by
  simp only [List.all_eq_true, List.mem_range]
  constructor
  · intro h i j hi hj
    exact h i hi j hj
  · intro h i hi j hj
    exact h i j hi hj

theorem solve_sudoku_fail_eq (m : GridF) (h : (solve_sudoku m).cont = true) :
    (solve_sudoku m).m = m := by
  rw [solve_sudoku] at h ⊢
  by_cases hpre :
      ((List.range 9).all fun i => (List.range 9).all fun j => can_be_correct m i j) = true
  · rw [if_pos hpre] at h ⊢
    exact sudoku_helper_restore solveFuel ⟨m, true, 0⟩ (buildHeap m)
      (fun e he => (buildHeap_mem m e he).2.2) h
  · rw [if_neg hpre]

theorem solve_sudoku_success_spec (m : GridF) (hin : inRange9 m)
    (h : (solve_sudoku m).cont = false) :
    inRange9 (solve_sudoku m).m ∧ locallyConsistent (solve_sudoku m).m ∧
    fullGrid (solve_sudoku m).m ∧ extendsG m (solve_sudoku m).m := by
  rw [solve_sudoku] at h ⊢
  by_cases hpre :
      ((List.range 9).all fun i => (List.range 9).all fun j => can_be_correct m i j) = true
  · rw [if_pos hpre] at h ⊢
    exact sudoku_helper_sound solveFuel ⟨m, true, 0⟩ (buildHeap m) rfl hin
      ((solve_pre_iff m).mp hpre) (heapInvariant_buildHeap m) h
  · rw [if_neg hpre] at h
    exact Bool.noConfusion h

/-- Nine pairwise-distinct values in `{1..9}` hit every value of `{1..9}`. -/
theorem nine_pigeonhole (f : Nat → Nat) (hrange : ∀ k, k < 9 → 1 ≤ f k ∧ f k ≤ 9)
    (hinj : ∀ k k2, k < 9 → k2 < 9 → f k = f k2 → k = k2) :
    ∀ v, 1 ≤ v → v ≤ 9 → ∃ k, k < 9 ∧ f k = v := by
  intro v hv1 hv9
  have hsub : (Finset.range 9).image f ⊆ Finset.Icc 1 9 := by
    intro x hx
    obtain ⟨k, hk, hfk⟩ := Finset.mem_image.mp hx
    have := hrange k (Finset.mem_range.mp hk)
    exact Finset.mem_Icc.mpr (hfk ▸ this)
  have hcard : ((Finset.range 9).image f).card = 9 := by
    rw [Finset.card_image_of_injOn]
    · simp
    · intro a ha b hb hab
      exact hinj a b (Finset.mem_range.mp ha) (Finset.mem_range.mp hb) hab
  have hicc : (Finset.Icc 1 9 : Finset ℕ).card = 9 := by simp
  have heq : (Finset.range 9).image f = Finset.Icc 1 9 :=
    Finset.eq_of_subset_of_card_le hsub (by rw [hcard, hicc])
  have hvmem : v ∈ (Finset.range 9).image f := by
    rw [heq]
    exact Finset.mem_Icc.mpr ⟨hv1, hv9⟩
  obtain ⟨k, hk, hfk⟩ := Finset.mem_image.mp hvmem
  exact ⟨k, Finset.mem_range.mp hk, hfk⟩

/-- A full, locally consistent, in-range grid is a solved Sudoku: digits 1–9
everywhere and each digit exactly once per row, column, and box. -/
theorem grid_complete_valid (m : GridF) (hin : inRange9 m) (hlc : locallyConsistent m)
    (hfull : fullGrid m) :
    (∀ i j, i < 9 → j < 9 → 1 ≤ m i j ∧ m i j ≤ 9) ∧
    (∀ i, i < 9 → ∀ v, 1 ≤ v → v ≤ 9 → ∃! c, c < 9 ∧ m i c = v) ∧
    (∀ j, j < 9 → ∀ v, 1 ≤ v → v ≤ 9 → ∃! r, r < 9 ∧ m r j = v) ∧
    (∀ b, b < 9 → ∀ v, 1 ≤ v → v ≤ 9 →
      ∃! k, k < 9 ∧ m (b / 3 * 3 + k / 3) (b % 3 * 3 + k % 3) = v) := by
  have hNC : ∀ i j, i < 9 → j < 9 → NoConflict m i j := fun i j hi hj =>
    (can_be_correct_iff m i j hi hj).mp (hlc i j hi hj)
  have hdig : ∀ i j, i < 9 → j < 9 → 1 ≤ m i j ∧ m i j ≤ 9 := fun i j hi hj =>
    ⟨Nat.one_le_iff_ne_zero.mpr (hfull i j hi hj), hin i j hi hj⟩
  have hrow_inj : ∀ i, i < 9 → ∀ c c2, c < 9 → c2 < 9 → m i c = m i c2 → c = c2 := by
    intro i hi c c2 hc hc2 heq
    by_contra hne
    exact (hNC i c hi hc).1 c2 hc2 (hfull i c hi hc) (fun h => hne h.symm) heq.symm
  have hcol_inj : ∀ j, j < 9 → ∀ r r2, r < 9 → r2 < 9 → m r j = m r2 j → r = r2 := by
    intro j hj r r2 hr hr2 heq
    by_contra hne
    exact (hNC r j hr hj).2.1 r2 hr2 (hfull r j hr hj) (fun h => hne h.symm) heq.symm
  have hbox_inj : ∀ b, b < 9 → ∀ k k2, k < 9 → k2 < 9 →
      m (b / 3 * 3 + k / 3) (b % 3 * 3 + k % 3)
        = m (b / 3 * 3 + k2 / 3) (b % 3 * 3 + k2 % 3) → k = k2 := by
    intro b hb k k2 hk hk2 heq
    by_contra hne
    set r1 := b / 3 * 3 + k / 3 with hr1
    set c1 := b % 3 * 3 + k % 3 with hc1
    set r2 := b / 3 * 3 + k2 / 3 with hr2
    set c2 := b % 3 * 3 + k2 % 3 with hc2
    have hr1lt : r1 < 9 := by omega
    have hc1lt : c1 < 9 := by omega
    have hr2lt : r2 < 9 := by omega
    have hc2lt : c2 < 9 := by omega
    have hnz1 : m r1 c1 ≠ 0 := hfull r1 c1 hr1lt hc1lt
    by_cases hrr : r1 = r2
    · have hcc : c1 ≠ c2 := by
        intro hcon
        apply hne
        omega
      have := (hNC r1 c1 hr1lt hc1lt).1 c2 hc2lt hnz1 (fun h => hcc h.symm)
      rw [← hrr] at heq
      exact this heq.symm
    · by_cases hcc : c1 = c2
      · have := (hNC r1 c1 hr1lt hc1lt).2.1 r2 hr2lt hnz1 (fun h => hrr h.symm)
        rw [← hcc] at heq
        exact this heq.symm
      · have hd1 : r2 / 3 = r1 / 3 := by omega
        have hd2 : c2 / 3 = c1 / 3 := by omega
        have hnz2 : m r2 c2 ≠ 0 := hfull r2 c2 hr2lt hc2lt
        exact (hNC r1 c1 hr1lt hc1lt).2.2 r2 c2 hr2lt hc2lt hd1 hd2
          (fun h => hrr h.symm) (fun h => hcc h.symm) hnz2 heq.symm
  refine ⟨hdig, ?_, ?_, ?_⟩
  · intro i hi v hv1 hv9
    obtain ⟨c, hc, hfc⟩ := nine_pigeonhole (fun c => m i c)
      (fun k hk => hdig i k hi hk) (fun k k2 hk hk2 => hrow_inj i hi k k2 hk hk2) v hv1 hv9
    exact ⟨c, ⟨hc, hfc⟩, fun c2 hc2 => hrow_inj i hi c2 c hc2.1 hc (by rw [hc2.2, hfc])⟩
  · intro j hj v hv1 hv9
    obtain ⟨r, hr, hfr⟩ := nine_pigeonhole (fun r => m r j)
      (fun k hk => hdig k j hk hj) (fun k k2 hk hk2 => hcol_inj j hj k k2 hk hk2) v hv1 hv9
    exact ⟨r, ⟨hr, hfr⟩, fun r2 hr2 => hcol_inj j hj r2 r hr2.1 hr (by rw [hr2.2, hfr])⟩
  · intro b hb v hv1 hv9
    obtain ⟨k, hk, hfk⟩ := nine_pigeonhole
      (fun k => m (b / 3 * 3 + k / 3) (b % 3 * 3 + k % 3))
      (fun k hk => hdig _ _ (by omega) (by omega))
      (fun k k2 hk hk2 => hbox_inj b hb k k2 hk hk2) v hv1 hv9
    exact ⟨k, ⟨hk, hfk⟩, fun k2 hk2 => hbox_inj b hb k2 k hk2.1 hk (by rw [hk2.2, hfk])⟩

/-! ## Candidate-set characterization -/

theorem foldl_erase_mem {β : Type} (gf : β → Nat) (v : Nat) :
    ∀ (l : List β) (p : Finset ℕ),
      (v ∈ l.foldl (fun p x => if gf x ≠ 0 then p.erase (gf x) else p) p ↔
        v ∈ p ∧ ∀ x ∈ l, ¬ (gf x ≠ 0 ∧ gf x = v)) := by
  intro l
  induction l with
  | nil => simp
  | cons x xs ih =>
    intro p
    simp only [List.foldl_cons]
    by_cases h0 : gf x ≠ 0
    · rw [if_pos h0, ih, Finset.mem_erase]
      constructor
      · rintro ⟨⟨hne, hp⟩, hrest⟩
        refine ⟨hp, ?_⟩
        intro y hy
        rcases List.mem_cons.mp hy with hxy | hxy
        · rintro ⟨_, heq⟩
          rw [hxy] at heq
          exact hne heq.symm
        · exact hrest y hxy
      · rintro ⟨hp, hall⟩
        refine ⟨⟨?_, hp⟩, fun y hy => hall y (List.mem_cons_of_mem x hy)⟩
        intro hcon
        exact hall x (List.mem_cons_self x xs) ⟨h0, hcon.symm⟩
    · rw [if_neg h0, ih]
      constructor
      · rintro ⟨hp, hrest⟩
        refine ⟨hp, ?_⟩
        intro y hy
        rcases List.mem_cons.mp hy with hxy | hxy
        · rintro ⟨hne, _⟩
          rw [hxy] at hne
          exact h0 hne
        · exact hrest y hxy
      · rintro ⟨hp, hall⟩
        exact ⟨hp, fun y hy => hall y (List.mem_cons_of_mem x hy)⟩

theorem mem_get_possibilities (g : GridF) (row col v : Nat) (h0 : g row col = 0) :
    v ∈ get_possibilities g row col ↔
      (1 ≤ v ∧ v ≤ 9) ∧
      (∀ c, c < 9 → ¬ (g row c ≠ 0 ∧ g row c = v)) ∧
      (∀ r, r < 9 → ¬ (g r col ≠ 0 ∧ g r col = v)) ∧
      (∀ a b, a ∈ blockRange row → b ∈ blockRange col → ¬ (g a b ≠ 0 ∧ g a b = v)) := by
  rw [get_possibilities, if_neg (by simp [h0])]
  simp only
  rw [foldl_erase_mem (fun rc : Nat × Nat => g rc.1 rc.2) v]
  rw [foldl_erase_mem (fun r => g r col) v]
  rw [foldl_erase_mem (fun c => g row c) v]
  rw [Finset.mem_Icc]
  constructor
  · rintro ⟨⟨⟨hicc, hrow⟩, hcol⟩, hbox⟩
    refine ⟨hicc, ?_, ?_, ?_⟩
    · intro c hc
      exact hrow c (List.mem_range.mpr hc)
    · intro r hr
      exact hcol r (List.mem_range.mpr hr)
    · intro a b ha hb
      exact hbox (a, b) (List.mem_flatMap.mpr ⟨a, ha, List.mem_map.mpr ⟨b, hb, rfl⟩⟩)
  · rintro ⟨hicc, hrow, hcol, hbox⟩
    refine ⟨⟨⟨hicc, ?_⟩, ?_⟩, ?_⟩
    · intro c hc
      exact hrow c (List.mem_range.mp hc)
    · intro r hr
      exact hcol r (List.mem_range.mp hr)
    · intro rc hrc
      obtain ⟨a, ha, hb⟩ := List.mem_flatMap.mp hrc
      obtain ⟨b, hb2, hrc2⟩ := List.mem_map.mp hb
      rw [← hrc2]
      exact hbox a b ha hb2

theorem check_solution_exists_true_iff (g : GridF) :
    check_solution_exists g = true ↔
      ∀ i j, i < 9 → j < 9 → ¬ (g i j = 0 ∧ get_possibilities g i j = ∅) := by
  rw [check_solution_exists, List.all_eq_true]
  constructor
  · intro h i j hi hj hcon
    have h2 := h i (List.mem_range.mpr hi)
    rw [List.all_eq_true] at h2
    have h3 := h2 j (List.mem_range.mpr hj)
    simp only [Bool.not_eq_eq_eq_not, Bool.not_true, Bool.and_eq_false_iff,
      decide_eq_false_iff_not] at h3
    rcases h3 with h4 | h4
    · exact h4 hcon.1
    · exact h4 hcon.2
  · intro h i hi
    rw [List.all_eq_true]
    intro j hj
    simp only [Bool.not_eq_eq_eq_not, Bool.not_true, Bool.and_eq_false_iff,
      decide_eq_false_iff_not]
    by_cases h1 : g i j = 0
    · right
      intro h2
      exact h i j (List.mem_range.mp hi) (List.mem_range.mp hj) ⟨h1, h2⟩
    · left
      exact h1

theorem check_solution_exists_false_iff (g : GridF) :
    check_solution_exists g = false ↔
      ∃ i j, i < 9 ∧ j < 9 ∧ g i j = 0 ∧ get_possibilities g i j = ∅ := by
  constructor
  · intro h
    by_contra hcon
    push_neg at hcon
    have : check_solution_exists g = true := by
      rw [check_solution_exists_true_iff]
      intro i j hi hj hand
      have := hcon i j hi hj hand.1
      exact this hand.2
    rw [this] at h
    exact Bool.noConfusion h
  · rintro ⟨i, j, hi, hj, h1, h2⟩
    cases hc : check_solution_exists g
    · rfl
    · exfalso
      rw [check_solution_exists_true_iff] at hc
      exact hc i j hi hj ⟨h1, h2⟩

/-! ## Claims about the solver -/

/-- **C1**: whenever `solve_sudoku` succeeds on an input grid (the
search-completion flag is set, leaving no empty cell), the resulting 9×9 grid
holds a digit 1–9 in every cell, and every row, every column, and every 3×3
box contains each of the digits 1 through 9 exactly once.  (Input grids carry
cell values `0..9`, per the data model.) -/
theorem solver_success_is_valid_solution (m : GridF) (hin : inRange9 m)
    (hs : (solve_sudoku m).cont = false) :
    (∀ i j, i < 9 → j < 9 → 1 ≤ (solve_sudoku m).m i j ∧ (solve_sudoku m).m i j ≤ 9) ∧
    (∀ i, i < 9 → ∀ v, 1 ≤ v → v ≤ 9 → ∃! c, c < 9 ∧ (solve_sudoku m).m i c = v) ∧
    (∀ j, j < 9 → ∀ v, 1 ≤ v → v ≤ 9 → ∃! r, r < 9 ∧ (solve_sudoku m).m r j = v) ∧
    (∀ b, b < 9 → ∀ v, 1 ≤ v → v ≤ 9 →
      ∃! k, k < 9 ∧ (solve_sudoku m).m (b / 3 * 3 + k / 3) (b % 3 * 3 + k % 3) = v) := by
  obtain ⟨h1, h2, h3, _⟩ := solve_sudoku_success_spec m hin hs
  exact grid_complete_valid _ h1 h2 h3

/-- Witness for C1 at a concrete solvable grid. -/
theorem solver_success_is_valid_solution_witness :
    ∃! c, c < 9 ∧ (solve_sudoku gridSolved).m 0 c = 5 := by
  have hin : inRange9 gridSolved := by
    have h : ∀ i, i < 9 → ∀ j, j < 9 → gridSolved i j ≤ 9 := by decide
    intro i j hi hj
    exact h i hi j hj
  exact (solver_success_is_valid_solution gridSolved hin (by decide)).2.1 0 (by norm_num) 5
    (by norm_num) (by norm_num)

/-- **C10**: if `solve_sudoku` terminates without finding a solution (the
completion flag is never set), the matrix is left exactly equal to the input
grid: every tentatively placed digit is cleared back to `0` on backtracking. -/
theorem solver_failure_leaves_matrix_unchanged (m : GridF)
    (h : (solve_sudoku m).cont = true) : (solve_sudoku m).m = m :=
  solve_sudoku_fail_eq m h

/-- Witness for C10 at a concrete infeasible grid. -/
theorem solver_failure_leaves_matrix_unchanged_witness :
    (solve_sudoku gridDupRow).m = gridDupRow :=
  solver_failure_leaves_matrix_unchanged gridDupRow (by decide)

/-- **C2 counterexample**: `gridNoCandidate` has the empty cell `(0, 0)` with
an empty candidate set, yet `solve_sudoku` does not stop before the search:
the ghost counter records tentative placements (`matrix[row][col] = j` runs
nine times), because the pre-search pass (`can_be_correct` on every cell) only
detects existing duplicates, never empty candidate sets. -/
theorem solver_empty_candidate_searches_counterexample :
    (gridNoCandidate 0 0 = 0 ∧ get_possibilities gridNoCandidate 0 0 = ∅) ∧
    (solve_sudoku gridNoCandidate).placements ≠ 0 :=
  ⟨⟨rfl, by decide⟩, by decide⟩

/-- **C2 (amended)**: the pre-search pass of `solve_sudoku` runs
`can_be_correct` on every cell, which only rejects grids already containing a
duplicate; an empty cell with an empty candidate set passes it and the search
is attempted (cells are tentatively filled).  The solver nevertheless always
fails on such grids: for every in-range input grid containing an empty cell
whose candidate set is empty, the search-completion flag is never set. -/
theorem solver_fails_on_empty_candidate_cell (m : GridF) (hin : inRange9 m)
    (hz : ∃ i j, i < 9 ∧ j < 9 ∧ m i j = 0 ∧ get_possibilities m i j = ∅) :
    (solve_sudoku m).cont = true := by
  cases hc : (solve_sudoku m).cont
  · exfalso
    obtain ⟨i, j, hi, hj, h0, hemp⟩ := hz
    obtain ⟨hinr, hlc, hfull, hext⟩ := solve_sudoku_success_spec m hin hc
    have hNC : NoConflict (solve_sudoku m).m i j :=
      (can_be_correct_iff _ i j hi hj).mp (hlc i j hi hj)
    have hvz : (solve_sudoku m).m i j ≠ 0 := hfull i j hi hj
    have hv1 : 1 ≤ (solve_sudoku m).m i j := Nat.one_le_iff_ne_zero.mpr hvz
    have hv9 : (solve_sudoku m).m i j ≤ 9 := hinr i j hi hj
    have hnot : ¬ ((solve_sudoku m).m i j ∈ get_possibilities m i j) := by
      rw [hemp]
      exact Finset.not_mem_empty _
    rw [mem_get_possibilities m i j _ h0] at hnot
    by_cases hrow : ∀ c, c < 9 → ¬ (m i c ≠ 0 ∧ m i c = (solve_sudoku m).m i j)
    · by_cases hcol : ∀ r, r < 9 → ¬ (m r j ≠ 0 ∧ m r j = (solve_sudoku m).m i j)
      · have hbox : ¬ ∀ a b, a ∈ blockRange i → b ∈ blockRange j →
            ¬ (m a b ≠ 0 ∧ m a b = (solve_sudoku m).m i j) := by
          intro hbox
          exact hnot ⟨⟨hv1, hv9⟩, hrow, hcol, hbox⟩
        push_neg at hbox
        obtain ⟨a, b, ha, hb, hnz, heqv⟩ := hbox
        obtain ⟨ha9, hda⟩ := (mem_blockRange i a hi).mp ha
        obtain ⟨hb9, hdb⟩ := (mem_blockRange j b hj).mp hb
        have hrab : (solve_sudoku m).m a b = m a b := hext a b ha9 hb9 hnz
        by_cases hai : a = i
        · have hbj : b ≠ j := by
            intro hcon
            rw [hai, hcon] at hnz
            exact hnz h0
          rw [hai] at hrab heqv
          exact hNC.1 b hb9 hvz hbj (hrab.trans heqv)
        · by_cases hbj : b = j
          · rw [hbj] at hrab heqv
            exact hNC.2.1 a ha9 hvz hai (hrab.trans heqv)
          · exact hNC.2.2 a b ha9 hb9 hda hdb hai hbj (by rw [hrab]; exact hnz)
              (hrab.trans heqv)
      · push_neg at hcol
        obtain ⟨r2, hr2, hnz, heqv⟩ := hcol
        have hr2i : r2 ≠ i := by
          intro hcon
          rw [hcon] at hnz
          exact hnz h0
        have hrab : (solve_sudoku m).m r2 j = m r2 j := hext r2 j hr2 hj hnz
        exact hNC.2.1 r2 hr2 hvz hr2i (hrab.trans heqv)
    · push_neg at hrow
      obtain ⟨c, hc2, hnz, heqv⟩ := hrow
      have hcj : c ≠ j := by
        intro hcon
        rw [hcon] at hnz
        exact hnz h0
      have hrab : (solve_sudoku m).m i c = m i c := hext i c hi hc2 hnz
      exact hNC.1 c hc2 hvz hcj (hrab.trans heqv)
  · rfl

/-- Witness for the amended C2 at a concrete grid. -/
theorem solver_fails_on_empty_candidate_cell_witness :
    (solve_sudoku gridNoCandidate).cont = true := by
  have hin : inRange9 gridNoCandidate := by
    have h : ∀ i, i < 9 → ∀ j, j < 9 → gridNoCandidate i j ≤ 9 := by decide
    intro i j hi hj
    exact h i hi j hj
  exact solver_fails_on_empty_candidate_cell gridNoCandidate hin
    ⟨0, 0, by norm_num, by norm_num, rfl, by decide⟩

/-! ## Difficulty analyzer lemmas -/

theorem calculate_difficulty_eq (g : GridF) :
    calculate_difficulty g =
      (if calcScore g < 40 then "Easy"
       else if calcScore g < 60 then "Medium"
       else if calcScore g < 80 then "Hard"
       else "Expert", calcScore g) := by
  simp only [calculate_difficulty, calcScore]
  split_ifs <;> rfl

theorem tech_bounds (g : GridF) :
    10 ≤ estimate_solving_techniques g ∧ estimate_solving_techniques g ≤ 90 := by
  simp only [estimate_solving_techniques]
  split_ifs <;> omega

theorem symStats_le (g : GridF) : (symStats g).1 ≤ (symStats g).2 := by
  have inner : ∀ (js : List Nat) (acc : Nat × Nat) (i : Nat), acc.1 ≤ acc.2 →
      (js.foldl (fun acc j =>
        if i = 8 - i ∧ j = 8 - j then acc
        else if (g i j = 0) ↔ (g (8 - i) (8 - j) = 0) then (acc.1 + 1, acc.2 + 1)
        else (acc.1, acc.2 + 1)) acc).1
        ≤ (js.foldl (fun acc j =>
        if i = 8 - i ∧ j = 8 - j then acc
        else if (g i j = 0) ↔ (g (8 - i) (8 - j) = 0) then (acc.1 + 1, acc.2 + 1)
        else (acc.1, acc.2 + 1)) acc).2 := by
    intro js
    induction js with
    | nil => intro acc i h; exact h
    | cons j rest ih =>
      intro acc i h
      simp only [List.foldl_cons]
      apply ih
      split_ifs
      · exact h
      · simp only
        omega
      · simp only
        omega
  have outer : ∀ (is : List Nat) (acc : Nat × Nat), acc.1 ≤ acc.2 →
      (is.foldl (fun acc i => (List.range 9).foldl (fun acc j =>
        if i = 8 - i ∧ j = 8 - j then acc
        else if (g i j = 0) ↔ (g (8 - i) (8 - j) = 0) then (acc.1 + 1, acc.2 + 1)
        else (acc.1, acc.2 + 1)) acc) acc).1
        ≤ (is.foldl (fun acc i => (List.range 9).foldl (fun acc j =>
        if i = 8 - i ∧ j = 8 - j then acc
        else if (g i j = 0) ↔ (g (8 - i) (8 - j) = 0) then (acc.1 + 1, acc.2 + 1)
        else (acc.1, acc.2 + 1)) acc) acc).2 := by
    intro is
    induction is with
    | nil => intro acc h; exact h
    | cons i rest ih =>
      intro acc h
      simp only [List.foldl_cons]
      exact ih _ (inner (List.range 9) acc i h)
  exact outer (List.range 9) (0, 0) (Nat.le_refl 0)

theorem pyRound_nonneg (q : ℚ) (h : 0 ≤ q) : 0 ≤ pyRound q := by
  simp only [pyRound]
  have hf : (0 : ℤ) ≤ ⌊q⌋ := Int.floor_nonneg.mpr h
  split_ifs <;> omega

theorem pyRound_le (q : ℚ) (n : ℤ) (h : q ≤ (n : ℚ)) : pyRound q ≤ n := by
  simp only [pyRound]
  have hf : ⌊q⌋ ≤ n := by
    have := Int.floor_le_floor h
    rwa [Int.floor_intCast] at this
  have hfq : (⌊q⌋ : ℚ) ≤ q := Int.floor_le q
  split_ifs with h1 h2 h3
  · exact hf
  · have hr : (1 : ℚ) / 2 ≤ q - ⌊q⌋ := le_of_not_lt h1
    have : (⌊q⌋ : ℚ) < (n : ℚ) := by linarith
    have : ⌊q⌋ < n := by exact_mod_cast this
    omega
  · exact hf
  · have hr : (1 : ℚ) / 2 ≤ q - ⌊q⌋ := le_of_not_lt h1
    have : (⌊q⌋ : ℚ) < (n : ℚ) := by linarith
    have : ⌊q⌋ < n := by exact_mod_cast this
    omega

theorem check_symmetry_bounds (g : GridF) :
    0 ≤ check_symmetry g ∧ check_symmetry g ≤ 10 := by
  simp only [check_symmetry]
  split_ifs with ht
  · constructor
    · apply pyRound_nonneg
      positivity
    · apply pyRound_le
      have hle := symStats_le g
      have htq : (0 : ℚ) < ((symStats g).2 : ℚ) := by exact_mod_cast ht
      rw [div_le_iff₀ htq]
      push_cast
      have : ((symStats g).1 : ℚ) ≤ ((symStats g).2 : ℚ) := by exact_mod_cast hle
      linarith
  · norm_num

theorem calculate_isolation_bounds (g : GridF) :
    0 ≤ calculate_isolation g ∧ calculate_isolation g ≤ 10 := by
  simp only [calculate_isolation]
  split_ifs
  · norm_num
  · norm_num
  · constructor
    · apply le_min (by norm_num)
      positivity
    · exact min_le_left _ _

theorem calculate_regional_density_bounds (g : GridF) :
    0 ≤ calculate_regional_density g ∧ calculate_regional_density g ≤ 10 := by
  simp only [calculate_regional_density]
  constructor
  · apply le_min (by norm_num)
    apply div_nonneg ?_ (by norm_num)
    apply mul_nonneg ?_ (by norm_num)
    apply div_nonneg ?_ (by norm_num)
    apply List.sum_nonneg
    intro x hx
    obtain ⟨c, _, hc⟩ := List.mem_map.mp hx
    rw [← hc]
    positivity
  · exact min_le_left _ _

/-! ## Claims about the difficulty analyzer -/

/-- **C3**: `calculate_difficulty` returns `(tier, score)` where
`score = min(empty_count * 1.5, 45) + 0.35 * technique_score
+ 0.1 * (10 - symmetry_score) + 0.05 * isolation_score
+ 0.05 * regional_score`, and the tier is Easy for `score < 40`, Medium for
`40 ≤ score < 60`, Hard for `60 ≤ score < 80`, and Expert for `score ≥ 80`. -/
theorem difficulty_formula_and_tiers (g : GridF) :
    (calculate_difficulty g).2 =
      min ((emptyCellCount g : ℚ) * 1.5) 45 +
      0.35 * (estimate_solving_techniques g : ℚ) +
      0.1 * ((10 : ℚ) - (check_symmetry g : ℚ)) +
      0.05 * calculate_isolation g +
      0.05 * calculate_regional_density g ∧
    (calculate_difficulty g).1 =
      (if (calculate_difficulty g).2 < 40 then "Easy"
       else if (calculate_difficulty g).2 < 60 then "Medium"
       else if (calculate_difficulty g).2 < 80 then "Hard"
       else "Expert") := by
  rw [calculate_difficulty_eq]
  constructor
  · simp only [calcScore]
    ring
  · rfl

/-- **C4**: the composite score is nonnegative and at most `78.5`
(`45 + 0.35*90 + 0.1*10 + 0.05*10 + 0.05*10`), so the tier "Expert"
(requiring `score ≥ 80`) is unreachable. -/
theorem composite_score_bounded_no_expert (g : GridF) :
    0 ≤ (calculate_difficulty g).2 ∧ (calculate_difficulty g).2 ≤ 78.5 ∧
    (calculate_difficulty g).1 ≠ "Expert" := by
  have hb1 : (0 : ℚ) ≤ min ((emptyCellCount g : ℚ) * 1.5) 45 :=
    le_min (by positivity) (by norm_num)
  have hb2 : min ((emptyCellCount g : ℚ) * 1.5) 45 ≤ 45 := min_le_right _ _
  have htech := tech_bounds g
  have htq1 : (10 : ℚ) ≤ (estimate_solving_techniques g : ℚ) := by exact_mod_cast htech.1
  have htq2 : (estimate_solving_techniques g : ℚ) ≤ 90 := by exact_mod_cast htech.2
  have hsym := check_symmetry_bounds g
  have hsq1 : (0 : ℚ) ≤ (check_symmetry g : ℚ) := by exact_mod_cast hsym.1
  have hsq2 : (check_symmetry g : ℚ) ≤ 10 := by exact_mod_cast hsym.2
  have hiso := calculate_isolation_bounds g
  have hreg := calculate_regional_density_bounds g
  have hscore : 0 ≤ calcScore g ∧ calcScore g ≤ 78.5 := by
    rw [calcScore]
    constructor
    · have h1 : (0 : ℚ) ≤ (estimate_solving_techniques g : ℚ) * 0.35 := by linarith
      have h2 : (0 : ℚ) ≤ ((10 : ℚ) - (check_symmetry g : ℚ)) * 0.1 := by linarith
      have h3 : (0 : ℚ) ≤ calculate_isolation g * 0.05 := by linarith [hiso.1]
      have h4 : (0 : ℚ) ≤ calculate_regional_density g * 0.05 := by linarith [hreg.1]
      linarith
    · have h1 : (estimate_solving_techniques g : ℚ) * 0.35 ≤ 31.5 := by linarith
      have h2 : ((10 : ℚ) - (check_symmetry g : ℚ)) * 0.1 ≤ 1 := by linarith
      have h3 : calculate_isolation g * 0.05 ≤ 0.5 := by linarith [hiso.2]
      have h4 : calculate_regional_density g * 0.05 ≤ 0.5 := by linarith [hreg.2]
      linarith
  rw [calculate_difficulty_eq]
  refine ⟨hscore.1, hscore.2, ?_⟩
  show (if calcScore g < 40 then "Easy"
       else if calcScore g < 60 then "Medium"
       else if calcScore g < 80 then "Hard"
       else "Expert") ≠ "Expert"
  have h80 : calcScore g < 80 := lt_of_le_of_lt hscore.2 (by norm_num)
  split_ifs <;> decide

/-- **C9**: the technique-proxy score is a pure function of the naked-single
count: `10` if the count exceeds 15, `30` if it exceeds 10, `60` if it
exceeds 5, and `90` otherwise. -/
theorem technique_score_is_function_of_naked_singles (g : GridF) :
    estimate_solving_techniques g = techOfCount (count_naked_singles g) := rfl

/-! ## Claims about the isolation score -/

/-- `filled_cells` is empty on an all-empty grid. -/
theorem filled_cells_eq_nil (g : GridF) (hz : ∀ i j, i < 9 → j < 9 → g i j = 0) :
    filled_cells g = [] := by
  have inner : ∀ (js : List Nat) (acc : List (Nat × Nat)) (i : Nat), i < 9 →
      (∀ j ∈ js, j < 9) →
      js.foldl (fun acc j => if g i j ≠ 0 then acc ++ [(i, j)] else acc) acc = acc := by
    intro js
    induction js with
    | nil => intro acc i _ _; rfl
    | cons j rest ih =>
      intro acc i hi hjs
      simp only [List.foldl_cons]
      rw [if_neg (by simp [hz i j hi (hjs j (List.mem_cons_self j rest))])]
      exact ih acc i hi (fun x hx => hjs x (List.mem_cons_of_mem j hx))
  have outer : ∀ (is : List Nat) (acc : List (Nat × Nat)), (∀ i ∈ is, i < 9) →
      is.foldl (fun acc i => (List.range 9).foldl
        (fun acc j => if g i j ≠ 0 then acc ++ [(i, j)] else acc) acc) acc = acc := by
    intro is
    induction is with
    | nil => intro acc _; rfl
    | cons i rest ih =>
      intro acc his
      simp only [List.foldl_cons]
      rw [inner (List.range 9) acc i (his i (List.mem_cons_self i rest))
        (fun j hj => List.mem_range.mp hj)]
      exact ih acc (fun x hx => his x (List.mem_cons_of_mem i hx))
  exact outer (List.range 9) [] (fun i hi => List.mem_range.mp hi)

/-- **C6**: on a grid with zero filled cells the isolation computation takes
the guarded early return (no division is reached) and yields exactly `0`. -/
theorem isolation_empty_grid_defaults_to_zero (g : GridF)
    (hz : ∀ i j, i < 9 → j < 9 → g i j = 0) : calculate_isolation g = 0 := by
  simp only [calculate_isolation]
  rw [if_pos (filled_cells_eq_nil g hz)]

/-- Witness for C6 at the all-empty grid. -/
theorem isolation_empty_grid_defaults_to_zero_witness : calculate_isolation gridZero = 0 :=
  isolation_empty_grid_defaults_to_zero gridZero (fun _ _ _ _ => rfl)

/-- **C5 counterexample**: on `gridTwoCells` the average pairwise Manhattan
distance is 8; the claim's literal formula ("average divided by 8, capped at
10") yields 1, but `calculate_isolation` (which computes `avg * 10 / 8`)
yields 10. -/
theorem isolation_not_avg_div_eight_counterexample :
    calculate_isolation gridTwoCells ≠ isolationPerSpec gridTwoCells := by
  have hne : filled_cells gridTwoCells ≠ [] := by decide
  have htd : totalDistance (filled_cells gridTwoCells) = 8 := by decide
  have hcmp : comparisons (filled_cells gridTwoCells) = 1 := by decide
  have hiso : calculate_isolation gridTwoCells = 10 := by
    simp only [calculate_isolation]
    rw [if_neg hne, if_neg (by simp [hcmp]), htd, hcmp]
    rw [show ((8 : ℕ) : ℚ) / ((1 : ℕ) : ℚ) * 10 / 8 = 10 by push_cast; norm_num]
    exact min_self 10
  have hspec : isolationPerSpec gridTwoCells = 1 := by
    rw [isolationPerSpec, htd, hcmp]
    rw [show ((8 : ℕ) : ℚ) / ((1 : ℕ) : ℚ) / 8 = 1 by push_cast; norm_num]
    exact min_eq_right (by norm_num)
  rw [hiso, hspec]
  norm_num

/-- **C5 (amended)**: for every grid with at least two filled cells, the
isolation score equals the average Manhattan distance over all unordered
pairs of filled cells (`total_distance / comparisons`) multiplied by 10 and
divided by 8, capped at 10. -/
theorem isolation_formula (g : GridF) (h2 : 2 ≤ (filled_cells g).length) :
    calculate_isolation g =
      min 10 ((totalDistance (filled_cells g) : ℚ)
        / (comparisons (filled_cells g)) * 10 / 8) := by
  have hne : filled_cells g ≠ [] := by
    intro hcon
    rw [hcon] at h2
    simp at h2
  have hcmp : comparisons (filled_cells g) ≠ 0 := by
    cases hfc : filled_cells g with
    | nil =>
      rw [hfc] at h2
      simp at h2
    | cons a t =>
      cases t with
      | nil =>
        rw [hfc] at h2
        simp at h2
      | cons b t2 =>
        simp only [comparisons, List.length_cons]
        omega
  simp only [calculate_isolation]
  rw [if_neg hne, if_neg hcmp]

/-- Witness for the amended C5 at a concrete grid. -/
theorem isolation_formula_witness :
    calculate_isolation gridTwoCells =
      min 10 ((totalDistance (filled_cells gridTwoCells) : ℚ)
        / (comparisons (filled_cells gridTwoCells)) * 10 / 8) :=
  isolation_formula gridTwoCells (by decide)

/-! ## Claims about the validator -/

/-- **C7**: for every grid that passes the row, column, and box duplicate
checks, `is_valid_sudoku` returns `(false, "Puzzle has no solution")` if and
only if some empty cell of the grid has an empty candidate set; otherwise it
returns `(true, none)`. -/
theorem validator_no_solution_iff (g : GridF)
    (h1 : firstRowDup g = none) (h2 : firstColDup g = none) (h3 : firstBoxDup g = none) :
    (is_valid_sudoku g = (false, some "Puzzle has no solution") ↔
      ∃ i j, i < 9 ∧ j < 9 ∧ g i j = 0 ∧ get_possibilities g i j = ∅) ∧
    (¬ (∃ i j, i < 9 ∧ j < 9 ∧ g i j = 0 ∧ get_possibilities g i j = ∅) →
      is_valid_sudoku g = (true, none)) := by
  have hval : is_valid_sudoku g =
      (if check_solution_exists g then ((true : Bool), (none : Option String))
       else (false, some "Puzzle has no solution")) := by
    rw [is_valid_sudoku, h1, h2, h3]
  rw [hval]
  constructor
  · constructor
    · intro h
      cases hc : check_solution_exists g
      · exact (check_solution_exists_false_iff g).mp hc
      · rw [hc] at h
        simp at h
    · intro hex
      have hcf : check_solution_exists g = false := (check_solution_exists_false_iff g).mpr hex
      rw [hcf]
      simp
  · intro hnex
    have hct : check_solution_exists g = true := by
      cases hc : check_solution_exists g
      · exact absurd ((check_solution_exists_false_iff g).mp hc) hnex
      · rfl
    rw [hct]
    simp

/-- Witness for C7 at a concrete duplicate-free infeasible grid. -/
theorem validator_no_solution_iff_witness :
    is_valid_sudoku gridNoCandidate = (false, some "Puzzle has no solution") :=
  (validator_no_solution_iff gridNoCandidate (by decide) (by decide) (by decide)).1.mpr
    ⟨0, 0, by norm_num, by norm_num, rfl, by decide⟩

/-- If position `j` is the first duplicate of the list, the scan of the unit
returns the value at `j`. -/
theorem scanDup_first (v : Nat) :
    ∀ (l : List Nat) (seen : List Nat) (j : Nat), j < l.length →
    l.getD j 0 = v → v ≠ 0 →
    (v ∈ seen ∨ ∃ i, i < j ∧ l.getD i 0 = v) →
    (∀ k, k < j → ¬ (l.getD k 0 ≠ 0 ∧
      (l.getD k 0 ∈ seen ∨ ∃ i, i < k ∧ l.getD i 0 = l.getD k 0))) →
    scanDup seen l = some v := by
  intro l
  induction l with
  | nil =>
    intro seen j hj
    simp at hj
  | cons x rest ih =>
    intro seen j hj hv hvne hdup hfirst
    cases j with
    | zero =>
      have hx : x = v := by simpa using hv
      have hseen : v ∈ seen := by
        rcases hdup with h | ⟨i, hi, _⟩
        · exact h
        · omega
      rw [scanDup, if_pos ⟨hx ▸ hvne, hx ▸ hseen⟩, hx]
    | succ j2 =>
      have hhead := hfirst 0 (Nat.succ_pos j2)
      rw [scanDup, if_neg ?hno]
      case hno =>
        rintro ⟨hxne, hxseen⟩
        apply hhead
        constructor
        · simpa using hxne
        · exact Or.inl (by simpa using hxseen)
      apply ih (x :: seen) j2 (by simpa using hj) (by simpa using hv) hvne
      · rcases hdup with hs | ⟨i, hi, heq⟩
        · exact Or.inl (List.mem_cons_of_mem x hs)
        · cases i with
          | zero =>
            have : x = v := by simpa using heq
            exact Or.inl (this ▸ List.mem_cons_self x seen)
          | succ i2 =>
            exact Or.inr ⟨i2, by omega, by simpa using heq⟩
      · intro k hk
        rintro ⟨hkne, hkdup⟩
        apply hfirst (k + 1) (by omega)
        refine ⟨by simpa using hkne, ?_⟩
        rcases hkdup with hmem | ⟨i, hi, heq⟩
        · rcases List.mem_cons.mp hmem with hx2 | hx2
          · refine Or.inr ⟨0, by omega, ?_⟩
            simpa using hx2.symm
          · exact Or.inl (by simpa using hx2)
        · exact Or.inr ⟨i + 1, by omega, by simpa using heq⟩

/-- **C8**: when a nonzero digit repeats within a unit, the validator reports
the first offending unit with a 1-indexed coordinate; in particular, for
every grid whose row 0 contains a `5` repeating an earlier `5` at the first
duplicate position of that row, `is_valid_sudoku` returns
`(false, "Duplicate 5 in row 1")`. -/
theorem validator_duplicate_five_row_one (g : GridF)
    (hj : ∃ j ∈ Finset.range 9, (rowVals g 0).getD j 0 = 5 ∧ dupIndex (rowVals g 0) j ∧
      ∀ k, k < j → ¬ dupIndex (rowVals g 0) k) :
    is_valid_sudoku g = (false, some "Duplicate 5 in row 1") := by
  obtain ⟨j, hj9, hv, hdup, hfirst⟩ := hj
  have hlen : (rowVals g 0).length = 9 := by simp [rowVals]
  have hscan : scanUnit (rowVals g 0) = some 5 := by
    rw [scanUnit]
    apply scanDup_first 5 (rowVals g 0) [] j (by rw [hlen]; exact Finset.mem_range.mp hj9)
      hv (by norm_num)
    · obtain ⟨i, hi, heq, _⟩ := hdup
      exact Or.inr ⟨i, Finset.mem_range.mp hi, heq.trans hv⟩
    · intro k hk
      rintro ⟨hkne, hkdup⟩
      rcases hkdup with hmem | ⟨i, hi, heq⟩
      · exact absurd hmem (List.not_mem_nil _)
      · exact hfirst k hk ⟨i, Finset.mem_range.mpr hi, heq, hkne⟩
  have hrow : firstRowDup g = some (0, 5) := by
    rw [firstRowDup, show List.range 9 = 0 :: [1, 2, 3, 4, 5, 6, 7, 8] from rfl,
      List.findSome?_cons]
    rw [hscan]
    rfl
  rw [is_valid_sudoku, hrow]
  rfl

/-- Witness for C8 at a concrete grid with two 5s in row 0. -/
theorem validator_duplicate_five_row_one_witness :
    is_valid_sudoku gridDupRow = (false, some "Duplicate 5 in row 1") :=
  validator_duplicate_five_row_one gridDupRow (by decide)
